import Mathlib

/-!
Shallow embedding of `src/DictionSentimentEmailAnalyzer.py` (weekly sentiment
scraper).  Pure fragments of the script become Lean functions; values that the
Python code represents as a float or the string sentinel `"N/A"` become
`Option ℚ` (with `none` standing for the sentinel / an unparseable value);
library calls that raise exceptions which the script catches with a bare
`except: continue` become `Option` results.  The VADER compound score is an
external pretrained model and is passed in as a function parameter.
-/

set_option autoImplicit false

namespace DictionAnalysis

/-- A character counts as a word character for the tokenizer, modelling the
regex class matched by the script's token scan (ASCII fragment). -/
def isWordChar (c : Char) : Bool := c.isAlphanum || c == '_'

/-- Extract the maximal runs of characters satisfying `keep`, dropping empty
runs.  With `keep = isWordChar` this models the script's word tokenization,
and with `keep = not whitespace` it models Python's `str.split()`. -/
def extractRuns (keep : Char → Bool) : List Char → List Char → List String
  | [], acc => if acc.isEmpty then [] else [String.mk acc.reverse]
  | c :: cs, acc =>
    if keep c then extractRuns keep cs (c :: acc)
    else if acc.isEmpty then extractRuns keep cs []
    else String.mk acc.reverse :: extractRuns keep cs []

/-- Split a character list at every separator (a character satisfying `p`),
keeping empty pieces — the behaviour of `re.split` on a single-character
class.  The result always has at least one element. -/
def splitKeepEmpty (p : Char → Bool) : List Char → List Char → List String
  | [], acc => [String.mk acc.reverse]
  | c :: cs, acc =>
    if p c then String.mk acc.reverse :: splitKeepEmpty p cs []
    else splitKeepEmpty p cs (c :: acc)

/-- Tokenization used by `score_lookup`: lowercase the text, then take the
maximal runs of word characters (the matches of the word regex). -/
def tokenize (s : String) : List String :=
  extractRuns isWordChar (s.data.map Char.toLower) []

/-- The positive keyword set of the script (100 tokens). -/
def positive_keywords : List String :=
  ["beat", "beats", "beating", "exceed", "exceeds", "exceeded", "exceeding",
   "surge", "surges", "surged", "soar", "soars", "soared", "rally", "rallies",
   "rallied", "jump", "jumps", "jumped", "spike", "spikes", "spiked", "pop",
   "pops", "popped", "gain", "gains", "gained", "advance", "advances",
   "advanced", "rise", "rises", "rose", "upbeat", "bull", "bullish",
   "optimism", "optimistic", "confidence", "confident", "strong", "strength",
   "robust", "resilient", "resilience", "record", "high", "highs", "profit",
   "profits", "profitable", "profitability", "margin", "margins", "expand",
   "expands", "expanded", "expanding", "growth", "growing", "accelerate",
   "accelerates", "accelerated", "accelerating", "outperform", "outperforms",
   "outperformed", "outperforming", "upgrade", "upgrades", "upgraded",
   "upgrading", "overweight", "buy", "buying", "accumulate", "accumulating",
   "initiate", "initiates", "initiated", "initiating", "guidance", "raise",
   "raises", "raised", "raising", "hike", "hikes", "hiked", "dividend",
   "dividends", "increase", "increases", "increased", "increasing", "buyback",
   "buybacks", "repurchase", "repurchases"]

/-- The negative keyword set of the script (100 tokens). -/
def negative_keywords : List String :=
  ["miss", "misses", "missed", "missing", "lag", "lags", "lagged", "lagging",
   "plunge", "plunges", "plunged", "plunging", "tumble", "tumbles", "tumbled",
   "tumbling", "drop", "drops", "dropped", "dropping", "fall", "falls",
   "fell", "falling", "slump", "slumps", "slumped", "slumping", "slide",
   "slides", "slid", "sliding", "decline", "declines", "declined",
   "declining", "selloff", "selloffs", "weak", "weakness", "soft", "softness",
   "bear", "bearish", "pessimism", "pessimistic", "fear", "loss", "losses",
   "unprofitable", "compression", "compress", "compressed", "cut", "cuts",
   "cutting", "lower", "lowers", "lowered", "lowering", "reduce", "reduces",
   "reduced", "reducing", "downgrade", "downgrades", "downgraded",
   "downgrading", "underperform", "underperforms", "underperformed",
   "underperforming", "warning", "recall", "recalls", "recalled",
   "restructuring", "layoff", "layoffs", "furlough", "furloughs",
   "bankruptcy", "insolvency", "default", "defaults", "defaulted", "dilution",
   "dilutive", "lawsuit", "lawsuits", "probe", "probes", "investigation",
   "investigations", "fraud", "scandal", "resign", "resigns", "resigned",
   "resignation"]

/-- Keyword-based sentiment of the script's `score_lookup`: tokenize, collect
every token occurrence that lies in each keyword set, score `+1 / -1 / 0` by
which side has more hits, join the match lists with a comma, and flag
ambiguity when both sides matched. -/
def score_lookup (text : String) : Int × String × String × Bool :=
  let tokens := tokenize text
  let pos_matches := tokens.filter (fun w => positive_keywords.contains w)
  let neg_matches := tokens.filter (fun w => negative_keywords.contains w)
  let score : Int :=
    if pos_matches.length > neg_matches.length then 1
    else if neg_matches.length > pos_matches.length then -1
    else 0
  let ambiguous : Bool := !pos_matches.isEmpty && !neg_matches.isEmpty
  (score, String.intercalate ", " pos_matches,
   String.intercalate ", " neg_matches, ambiguous)

/-- Number of token occurrences of `text` lying in the positive keyword set. -/
def posCount (text : String) : Nat :=
  (tokenize text).countP (fun w => positive_keywords.contains w)

/-- Number of token occurrences of `text` lying in the negative keyword set. -/
def negCount (text : String) : Nat :=
  (tokenize text).countP (fun w => negative_keywords.contains w)

/-- Sentence candidates of `classify_sentiment`: split the text on the three
sentence punctuation marks, keeping empty pieces, exactly as the script's
regex split does. -/
def splitSentences (text : String) : List String :=
  splitKeepEmpty (fun c => c == '.' || c == '!' || c == '?') text.data []

/-- The per-sentence tally of `classify_sentiment`: for each candidate, the
compound score sorts it into positive (`≥ 0.3`), negative (`≤ -0.3`) or
neutral, mirroring the script's if/elif/else.  Returns `(pos, neg, neu)`. -/
def tallySentences (compound : String → ℚ) : List String → Nat × Nat × Nat
  | [] => (0, 0, 0)
  | s :: rest =>
    let t := tallySentences compound rest
    let c := compound s
    if c ≥ 3/10 then (t.1 + 1, t.2.1, t.2.2)
    else if c ≤ -(3/10) then (t.1, t.2.1 + 1, t.2.2)
    else (t.1, t.2.1, t.2.2 + 1)

/-- The script's `classify_sentiment`, with the VADER compound model passed in
as the parameter `compound`.  Splits into sentence candidates, tallies every
candidate, and applies the 70% supermajority rule; an empty tally would
return `(0, neutral)`. -/
def classify_sentiment (compound : String → ℚ) (text : String) : Int × String :=
  let t := tallySentences compound (splitSentences text)
  let total := t.1 + t.2.1 + t.2.2
  if total = 0 then (0, "neutral")
  else if (t.1 : ℚ) / total ≥ 7/10 then (1, "positive")
  else if (t.2.1 : ℚ) / total ≥ 7/10 then (-1, "negative")
  else (0, "neutral")

/-- Is the string empty or whitespace-only? -/
def isBlank (s : String) : Bool := s.data.all Char.isWhitespace

/-- Classifier following the specification's words rather than the source:
empty/whitespace-only candidates are discarded before tallying, and the
supermajority rule runs over the retained sentences only.  Used to compare
the spec's description against the source behaviour. -/
def classify_sentiment_spec (compound : String → ℚ) (text : String) :
    Int × String :=
  let sents := (splitSentences text).filter (fun s => !isBlank s)
  let t := tallySentences compound sents
  let total := t.1 + t.2.1 + t.2.2
  if total = 0 then (0, "neutral")
  else if (t.1 : ℚ) / total ≥ 7/10 then (1, "positive")
  else if (t.2.1 : ℚ) / total ≥ 7/10 then (-1, "negative")
  else (0, "neutral")

/-! ### Price window resolver (`get_price_change`) -/

/-- One daily bar of the fetched price history: the calendar date rendered as
the script renders it (a `%Y-%m-%d` string) together with the Open and Close
columns. -/
structure Bar where
  date : String
  openPrice : ℚ
  closePrice : ℚ
deriving DecidableEq, Repr

/-- The parts of the event instant that `get_price_change` and the 16:00 rule
can see: the event's local calendar date (already rendered with `%Y-%m-%d`,
as `dt_str` is in the script) and its local time of day. -/
structure EventTime where
  dateStr : String
  hour : Nat
  minute : Nat
deriving DecidableEq, Repr

/-- The six price snapshots returned by `get_price_change`, in the source's
return order; `none` is the script's `"N/A"` sentinel. -/
structure PriceBundle where
  priceAtTime : Option ℚ
  plus1h : Option ℚ
  plus4h : Option ℚ
  endOfWeekPrice : Option ℚ
  endOfDayPrice : Option ℚ
  premarketPrice : Option ℚ
deriving DecidableEq, Repr

/-- The all-sentinel bundle `("N/A",) * 6`. -/
def allUnavailable : PriceBundle := ⟨none, none, none, none, none, none⟩

/-- The script's `get_price_change`, with the daily history fetched from
yfinance passed in as `hist` (ordered daily bars of the week after the event).
Empty history gives six sentinels; otherwise `Price @ Time` and
`End of Day Price` are the Close of the first bar whose date string equals the
event's date string (sentinel when no bar matches), `+1h`/`+4h` are the Close
of the second/third bars when they exist, `End of Week Price` is the Close of
the last bar and `Premarket Price` the Open of the first. -/
def get_price_change (hist : List Bar) (et : EventTime) : PriceBundle :=
  if hist.isEmpty then allUnavailable
  else
    let matching := hist.filter (fun b => b.date == et.dateStr)
    { priceAtTime := matching.head?.map Bar.closePrice
      plus1h := (hist.get? 1).map Bar.closePrice
      plus4h := (hist.get? 2).map Bar.closePrice
      endOfWeekPrice := hist.getLast?.map Bar.closePrice
      endOfDayPrice := matching.head?.map Bar.closePrice
      premarketPrice := hist.head?.map Bar.openPrice }

/-! ### Aggregation (`price_change_pct` and the per-ticker summary) -/

/-- One row of the per-article frame, restricted to the columns the summary
aggregation reads.  `none` models the `"N/A"` sentinel (or any value that
`float(...)` fails to parse). -/
structure Row where
  ticker : String
  priceAtTime : Option ℚ
  plus1h : Option ℚ
  plus4h : Option ℚ
  endOfDayPrice : Option ℚ
  endOfWeekPrice : Option ℚ
deriving DecidableEq, Repr

/-- The percent-change formula of the script: `((target - base) / base) * 100`. -/
def pct (base target : ℚ) : ℚ := (target - base) / base * 100

/-- The list of changes accumulated by `price_change_pct`: iterate over the
base series with `enumerate`, pair each base with `df.iloc[i][target_col]`
(positional into the whole frame `df`), and skip any iteration where parsing
fails, the index is out of range, or the division raises (base `0`). -/
def pccChanges (df : List Row) (col : Row → Option ℚ) :
    Nat → List (Option ℚ) → List ℚ
  | _, [] => []
  | i, p :: ps =>
    match p, (df.get? i).bind col with
    | some base, some target =>
      if base = 0 then pccChanges df col (i + 1) ps
      else pct base target :: pccChanges df col (i + 1) ps
    | _, _ => pccChanges df col (i + 1) ps

/-- The script's `price_change_pct`: mean of the accumulated changes, or `0`
when no row produced a valid change. -/
def price_change_pct (price_series : List (Option ℚ)) (df : List Row)
    (col : Row → Option ℚ) : ℚ :=
  let changes := pccChanges df col 0 price_series
  if changes.isEmpty then 0 else changes.sum / changes.length

/-- One horizon column of the summary frame: the script's
`price_change_pct(x, df, target_col)` where `x` is the `Price @ Time` series
of the ticker's group within the sorted frame `df` and `df` itself is the
whole sorted frame captured by the lambda's closure. -/
def avg_change (df : List Row) (tk : String) (col : Row → Option ℚ) : ℚ :=
  price_change_pct (((df.filter (fun r => r.ticker == tk)).map Row.priceAtTime))
    df col

/-! ### Timestamp normalizer (the Finviz date-text branch of the scraper) -/

/-- A timezone-aware instant in the trading time zone (US/Eastern); the zone
is fixed throughout the pipeline, so only the calendar fields are carried. -/
structure Datetime where
  year : Nat
  month : Nat
  day : Nat
  hour : Nat
  minute : Nat
deriving DecidableEq, Repr

/-- Does the second character list appear at the head of the first? -/
def startsWithChars : List Char → List Char → Bool
  | _, [] => true
  | [], _ :: _ => false
  | c :: cs, p :: ps => c == p && startsWithChars cs ps

/-- Does `pat` occur as a contiguous run somewhere in the list? -/
def containsChars (pat : List Char) : List Char → Bool
  | [] => pat.isEmpty
  | c :: cs => startsWithChars (c :: cs) pat || containsChars pat cs

/-- Substring test modelling Python's `in` on strings. -/
def strContains (s pat : String) : Bool := containsChars pat.data s.data

/-- Python's `int(...)` on the digit strings the scraper feeds it: `some` of
the value for a nonempty all-digit string, `none` (a raised `ValueError`,
caught by the row-level handler) otherwise. -/
def parseNat (s : String) : Option Nat :=
  if !s.isEmpty && s.data.all Char.isDigit then
    some (s.data.foldl (fun n c => n * 10 + (c.toNat - 48)) 0)
  else none

/-- Prefix match of the scraper's absolute-date regex: three word characters,
dash, two digits, dash, two digits, space, one or two digits, colon, two
digits, then `AM` or `PM` (anything may follow). -/
def absRegexMatch (s : String) : Bool :=
  match s.data with
  | a :: b :: c :: '-' :: d1 :: d2 :: '-' :: y1 :: y2 :: ' ' :: rest =>
    isWordChar a && isWordChar b && isWordChar c &&
    d1.isDigit && d2.isDigit && y1.isDigit && y2.isDigit &&
    (match rest with
     | h1 :: h2 :: ':' :: m1 :: m2 :: p :: 'M' :: _ =>
       h1.isDigit && h2.isDigit && m1.isDigit && m2.isDigit &&
       (p == 'A' || p == 'P')
     | h1 :: ':' :: m1 :: m2 :: p :: 'M' :: _ =>
       h1.isDigit && m1.isDigit && m2.isDigit && (p == 'A' || p == 'P')
     | _ => false)
  | _ => false

/-- Month number of a three-letter abbreviation, case-insensitively, as
`strptime`'s `%b` accepts it. -/
def monthOfAbbrev (s : String) : Option Nat :=
  match String.mk (s.data.map Char.toLower) with
  | "jan" => some 1 | "feb" => some 2 | "mar" => some 3 | "apr" => some 4
  | "may" => some 5 | "jun" => some 6 | "jul" => some 7 | "aug" => some 8
  | "sep" => some 9 | "oct" => some 10 | "nov" => some 11 | "dec" => some 12
  | _ => none

/-- Length in days of month `m` of year `y` (Gregorian). -/
def daysInMonth (y m : Nat) : Nat :=
  if m = 2 then
    if y % 4 = 0 && (y % 100 ≠ 0 || y % 400 = 0) then 29 else 28
  else if m = 4 || m = 6 || m = 9 || m = 11 then 30
  else 31

/-- The digit value of a character. -/
def digitVal (c : Char) : Nat := c.toNat - 48

/-- Models `datetime.strptime(date_text, '%b-%d-%y %I:%M%p')` followed by
`eastern_tz.localize`: the whole string must be consumed, the month
abbreviation must be real, the day must exist in the month, the 12-hour value
must lie in `1..12` and the minutes in `0..59`; two-digit years `00..68` map
to `20xx` and `69..99` to `19xx`; `none` models the raised `ValueError`
(caught by the row-level handler). -/
def strptimeAbs (s : String) : Option Datetime :=
  match s.data with
  | a :: b :: c :: '-' :: d1 :: d2 :: '-' :: y1 :: y2 :: ' ' :: rest =>
    let core := fun (h12 : Nat) (tail : List Char) =>
      match tail with
      | ':' :: m1 :: m2 :: p1 :: p2 :: [] =>
        if !(m1.isDigit && m2.isDigit) then none
        else
          let minute := digitVal m1 * 10 + digitVal m2
          let isPM :=
            (p1 == 'P' || p1 == 'p') && (p2 == 'M' || p2 == 'm')
          let isAM :=
            (p1 == 'A' || p1 == 'a') && (p2 == 'M' || p2 == 'm')
          if !(isPM || isAM) then none
          else if h12 < 1 || h12 > 12 || minute > 59 then none
          else
            let hour :=
              if isPM then (if h12 = 12 then 12 else h12 + 12)
              else (if h12 = 12 then 0 else h12)
            match monthOfAbbrev (String.mk [a, b, c]) with
            | none => none
            | some month =>
              if !(d1.isDigit && d2.isDigit && y1.isDigit && y2.isDigit) then
                none
              else
                let day := digitVal d1 * 10 + digitVal d2
                let yy := digitVal y1 * 10 + digitVal y2
                let year := if yy ≤ 68 then 2000 + yy else 1900 + yy
                if day < 1 || day > daysInMonth year month then none
                else some ⟨year, month, day, hour, minute⟩
      | _ => none
    match rest with
    | h1 :: h2 :: tail =>
      if h1.isDigit && h2.isDigit then core (digitVal h1 * 10 + digitVal h2) tail
      else if h1.isDigit then core (digitVal h1) (h2 :: tail)
      else none
    | h1 :: tail => if h1.isDigit then core (digitVal h1) tail else none
    | [] => none
  | _ => none

/-- The `Today` branch of the scraper: take the second whitespace token,
drop its last two characters, split the remainder on `:` into exactly an
hour and a minute integer, apply the 12-hour adjustment (`PM` in the token
and hour ≠ 12 adds 12, else `AM` in the token and hour = 12 gives 0), and
overwrite the hour and minute of `now` (seconds zeroed); `none` models any
raised exception, which the row-level handler turns into a skipped row. -/
def parseTodayBranch (now : Datetime) (date_text : String) : Option Datetime :=
  match extractRuns (fun c => !c.isWhitespace) date_text.data [] with
  | _ :: tstr :: _ =>
    let core := String.mk (tstr.data.dropLast.dropLast)
    match splitKeepEmpty (fun c => c == ':') core.data [] with
    | [hs, ms] =>
      match parseNat hs, parseNat ms with
      | some h0, some m =>
        let h :=
          if strContains tstr "PM" && h0 ≠ 12 then h0 + 12
          else if strContains tstr "AM" && h0 = 12 then 0
          else h0
        if h ≤ 23 && m ≤ 59 then
          some ⟨now.year, now.month, now.day, h, m⟩
        else none
      | _, _ => none
    | _ => none
  | _ => none

/-- The scraper's date-text dispatch: the `Today` branch whenever the raw
text contains the substring `Today`, else the `strptime` branch whenever the
absolute-date regex matches a prefix, else the row is rejected. -/
def parse_finviz_timestamp (now : Datetime) (date_text : String) :
    Option Datetime :=
  if strContains date_text "Today" then parseTodayBranch now date_text
  else if absRegexMatch date_text then strptimeAbs date_text
  else none

/-! ### Deduplication (`drop_duplicates` on the collected events) -/

/-- One collected event, restricted to the fields deduplication and the later
claims read: the dedup key columns plus the content and score payload that
distinguishes otherwise-duplicate rows. -/
structure Event where
  ticker : String
  datetime : Datetime
  title : String
  content : String
  lookupScore : Int
  vaderScore : Int
deriving DecidableEq, Repr

/-- The dedup key `(Ticker, Title, Datetime)` used by `drop_duplicates`. -/
def eventKey (e : Event) : String × String × Datetime :=
  (e.ticker, e.title, e.datetime)

/-- Worker of `drop_duplicates`: walk the collection keeping the first event
of each key, remembering keys already seen. -/
def dedupAux (seen : List (String × String × Datetime)) :
    List Event → List Event
  | [] => []
  | e :: es =>
    if eventKey e ∈ seen then dedupAux seen es
    else e :: dedupAux (eventKey e :: seen) es

/-- `pandas.DataFrame.drop_duplicates(subset=["Ticker", "Title", "Datetime"])`
with the default `keep="first"`: one event survives per key, the first in
collection order. -/
def drop_duplicates (l : List Event) : List Event := dedupAux [] l

/-- The seen-key set after `dedupAux` has walked `l` starting from `seen`. -/
def seenAfter (seen : List (String × String × Datetime)) :
    List Event → List (String × String × Datetime)
  | [] => seen
  | e :: es =>
    if eventKey e ∈ seen then seenAfter seen es
    else seenAfter (eventKey e :: seen) es

/-! ### Helper lemmas -/

lemma pccChanges_eq_nil_of_all_none (df : List Row) (col : Row → Option ℚ) :
    ∀ (series : List (Option ℚ)) (i : Nat), (∀ p ∈ series, p = none) →
      pccChanges df col i series = [] := by
  intro series
  induction series with
  | nil => intro i _; rfl
  | cons p ps ih =>
    intro i h
    have hp : p = none := h p (List.mem_cons_self _ _)
    subst hp
    simpa [pccChanges] using ih (i + 1) (fun q hq => h q (List.mem_cons_of_mem _ hq))

/-- A ticker `tk` and a sample row whose fields are all the sentinel. -/
def rowAllNA : Row := ⟨"TKR", none, none, none, none, none⟩

/-- First group of a two-ticker frame: its own `+1h` change would be 10%. -/
def rowFirst : Row := ⟨"AAA", some 100, some 110, some 110, some 110, some 110⟩

/-- Second group of the frame: its own `+1h` change would be 100%. -/
def rowSecond : Row := ⟨"BBB", some 100, some 200, some 200, some 200, some 200⟩

/-! ### C1 — mean over zero valid samples -/

/-- C1 counterexample.  The claim says a ticker with zero events having a
valid base and target for a horizon yields a missing/undefined average, not
0.  On the source, `price_change_pct` returns the plain number `0` when the
`changes` list is empty: for a one-event ticker whose six price fields are
all the `"N/A"` sentinel, the aggregated `+1h` average is `0`, not a missing
value. -/
theorem empty_horizon_average_is_zero_cex :
    avg_change [rowAllNA] "TKR" Row.plus1h = 0 ∧
    avg_change [rowAllNA] "TKR" Row.endOfWeekPrice = 0 := by
  constructor <;> rfl

/-- C1 amended.  If every event of ticker `tk` has an unparseable
(`"N/A"`) base price, no change is accumulated for any horizon and the
aggregated average is the helper's fallback value `0` — a plain zero, not a
missing marker.  In particular a ticker whose six price fields are all
sentinels gets `0` (never a propagated-undefined value) in every horizon
column. -/
theorem empty_horizon_average_defaults_to_zero (df : List Row) (tk : String)
    (col : Row → Option ℚ)
    (h : ∀ r ∈ df, r.ticker = tk → r.priceAtTime = none) :
    avg_change df tk col = 0 := by
  unfold avg_change price_change_pct
  have hall : ∀ p ∈ (df.filter (fun r => r.ticker == tk)).map Row.priceAtTime,
      p = none := by
    intro p hp
    rcases List.mem_map.mp hp with ⟨r, hr, rfl⟩
    rcases List.mem_filter.mp hr with ⟨hrdf, hrtk⟩
    exact h r hrdf (by simpa using hrtk)
  simp [pccChanges_eq_nil_of_all_none df col _ 0 hall]

/-- C1 witness: the amended theorem applied to the all-sentinel frame. -/
theorem empty_horizon_average_defaults_to_zero_witness :
    avg_change [rowAllNA] "TKR" Row.plus4h = 0 :=
  empty_horizon_average_defaults_to_zero [rowAllNA] "TKR" Row.plus4h
    (by intro r hr _; simp at hr; subst hr; rfl)

/-! ### C2 — per-event pairing of base and target prices -/

/-- C2 (code bug).  The claim (and the spec) require each change entering a
ticker's average to pair an event's base price with that same event's target
price.  The source computes `df.iloc[i][target_col]` where `i` enumerates the
ticker group's base series but `df` is the whole sorted frame, so for every
group after the first the targets are read from the wrong rows.  Concretely:
in the sorted two-row frame `[rowFirst (ticker AAA), rowSecond (ticker BBB)]`,
ticker `BBB`'s event has base 100 and `+1h` target 200, so its own change is
`pct 100 200 = 100`; but the code pairs the base with row 0 of the whole
frame (`AAA`'s target 110) and reports an average of `10`. -/
theorem groupwise_pct_misalignment :
    avg_change [rowFirst, rowSecond] "BBB" Row.plus1h = 10 ∧
    pct 100 200 = 100 ∧
    pct 100 110 = 10 ∧
    (10 : ℚ) ≠ 100 := by
  refine ⟨?_, by norm_num [pct], by norm_num [pct], by norm_num⟩
  norm_num [avg_change, price_change_pct, pccChanges, pct, rowFirst, rowSecond]

/-! ### C3 — priceAtTime and the before/after-16:00 rule -/

/-- The bar and event used in the C3 and C4 evaluations. -/
def barMay10 : Bar := ⟨"2024-05-10", 10, 11⟩

/-- An event at 10:00 local time (before 16:00) on the bar's date. -/
def eventMorning : EventTime := ⟨"2024-05-10", 10, 0⟩

/-- C3 counterexample.  The claim says that when the event's local date
matches a bar and the local time-of-day is before 16:00, `priceAtTime` is
that day's open.  On the source the resolver never looks at the time of day:
for an event at 10:00 on a day whose bar has open 10 and close 11, it returns
the close 11, not the open 10. -/
theorem priceAtTime_before_close_cex :
    eventMorning.hour < 16 ∧
    barMay10.date = eventMorning.dateStr ∧
    (get_price_change [barMay10] eventMorning).priceAtTime = some 11 ∧
    barMay10.openPrice = 10 ∧ (11 : ℚ) ≠ 10 := by
  refine ⟨by decide, rfl, by rfl, rfl, by norm_num⟩

/-- C3 amended.  When some bar of the fetched series has the event's local
date, `priceAtTime` (and `endOfDayPrice`) is the Close of the first such
bar regardless of the event's local time of day — the before/after-16:00
distinction of the claim is not implemented. -/
theorem priceAtTime_is_close_regardless_of_time (hist : List Bar)
    (et : EventTime) (b : Bar)
    (h : (hist.filter (fun x => x.date == et.dateStr)).head? = some b) :
    (get_price_change hist et).priceAtTime = some b.closePrice ∧
    (get_price_change hist et).endOfDayPrice = some b.closePrice ∧
    ∀ hr mi : Nat,
      (get_price_change hist ⟨et.dateStr, hr, mi⟩).priceAtTime =
        some b.closePrice := by
  have hne : hist ≠ [] := by
    intro h0
    subst h0
    simp at h
  have hemp : hist.isEmpty = false := by
    cases hist with
    | nil => exact absurd rfl hne
    | cons a t => rfl
  refine ⟨?_, ?_, ?_⟩ <;> simp [get_price_change, hemp, h]

/-- C3 witness: the amended theorem applied to the concrete morning event. -/
theorem priceAtTime_is_close_regardless_of_time_witness :
    (get_price_change [barMay10] eventMorning).priceAtTime = some 11 ∧
    (get_price_change [barMay10] ⟨eventMorning.dateStr, 17, 30⟩).priceAtTime =
      some 11 := by
  have h := priceAtTime_is_close_regardless_of_time [barMay10] eventMorning
    barMay10 (by rfl)
  exact ⟨h.1, h.2.2 17 30⟩

/-! ### C4 — sentinel behaviour of the price resolver -/

/-- A two-bar history none of whose dates is `eventMorning`'s date. -/
def histLater : List Bar := [⟨"2024-05-13", 5, 6⟩, ⟨"2024-05-14", 7, 8⟩]

/-- C4 counterexample.  The claim says that when the non-empty fetched series
has no bar on the event's local date, all six outputs are the sentinel.  On
the source only `Price @ Time` and `End of Day Price` become sentinels in
that case: the end-of-week price is still the last bar's close, the
premarket price the first bar's open, and `+1h`/`+4h` the next bars'
closes when present. -/
theorem missing_bar_not_all_unavailable_cex :
    eventMorning.dateStr ∉ histLater.map Bar.date ∧
    (get_price_change histLater eventMorning).endOfWeekPrice = some 8 ∧
    (get_price_change histLater eventMorning).premarketPrice = some 5 ∧
    (get_price_change histLater eventMorning).plus1h = some 8 ∧
    get_price_change histLater eventMorning ≠ allUnavailable := by
  refine ⟨by decide, by rfl, by rfl, by rfl, by decide⟩

/-- C4 amended.  If the fetched series is empty, all six outputs are the
sentinel and the event is not aborted.  If the series is non-empty but no
bar's date equals the event's local date, only `priceAtTime` and
`endOfDayPrice` are sentinels, while `endOfWeekPrice` and `premarketPrice`
are real prices (last close and first open). -/
theorem price_resolver_unavailable_fields (hist : List Bar) (et : EventTime) :
    (hist = [] → get_price_change hist et = allUnavailable) ∧
    (hist ≠ [] → et.dateStr ∉ hist.map Bar.date →
      (get_price_change hist et).priceAtTime = none ∧
      (get_price_change hist et).endOfDayPrice = none ∧
      (get_price_change hist et).endOfWeekPrice ≠ none ∧
      (get_price_change hist et).premarketPrice ≠ none) := by
  constructor
  · intro h0
    subst h0
    rfl
  · intro hne hnmem
    have hfil : hist.filter (fun b => b.date == et.dateStr) = [] := by
      rw [List.filter_eq_nil_iff]
      intro b hb hbeq
      exact hnmem (List.mem_map.mpr ⟨b, hb, by simpa using hbeq⟩)
    cases hist with
    | nil => exact absurd rfl hne
    | cons a t =>
      have hlast : ∃ x, (a :: t).getLast? = some x :=
        ⟨(a :: t).getLast (by simp), List.getLast?_eq_getLast _ _⟩
      rcases hlast with ⟨x, hx⟩
      refine ⟨?_, ?_, ?_, ?_⟩ <;>
        simp [get_price_change, hfil, hx]

/-- C4 witness: the amended theorem applied to the empty history and to the
two-bar history with no matching date. -/
theorem price_resolver_unavailable_fields_witness :
    get_price_change [] eventMorning = allUnavailable ∧
    (get_price_change histLater eventMorning).priceAtTime = none ∧
    (get_price_change histLater eventMorning).endOfWeekPrice ≠ none := by
  have h1 := (price_resolver_unavailable_fields [] eventMorning).1 rfl
  have h2 := (price_resolver_unavailable_fields histLater eventMorning).2
    (by decide) (by decide)
  exact ⟨h1, h2.1, h2.2.2.1⟩

/-! ### Sentence-splitting and tally lemmas (C5, C9) -/

lemma splitKeepEmpty_length_pos (p : Char → Bool) :
    ∀ (cs acc : List Char), 1 ≤ (splitKeepEmpty p cs acc).length := by
  intro cs
  induction cs with
  | nil =>
    intro acc
    simp [splitKeepEmpty]
  | cons c cs ih =>
    intro acc
    simp only [splitKeepEmpty]
    by_cases h : p c
    · simp [h]
    · simpa [h] using ih (c :: acc)

lemma splitSentences_length_pos (text : String) :
    0 < (splitSentences text).length :=
  splitKeepEmpty_length_pos _ text.data []

lemma tallySentences_sum (f : String → ℚ) :
    ∀ l : List String,
      (tallySentences f l).1 + (tallySentences f l).2.1 +
        (tallySentences f l).2.2 = l.length := by
  intro l
  induction l with
  | nil => rfl
  | cons s rest ih =>
    simp only [tallySentences]
    by_cases h1 : f s ≥ 3/10
    · simp [h1]
      omega
    · by_cases h2 : f s ≤ -(3/10)
      · simp [h1, h2]
        omega
      · simp [h1, h2]
        omega

lemma tallySentences_pos_eq_countP (f : String → ℚ) :
    ∀ l : List String,
      (tallySentences f l).1 = l.countP (fun s => decide (f s ≥ 3/10)) := by
  intro l
  induction l with
  | nil => rfl
  | cons s rest ih =>
    simp only [tallySentences, List.countP_cons]
    by_cases h1 : f s ≥ 3/10
    · simp [h1, ih]
    · by_cases h2 : f s ≤ -(3/10)
      · simp [h1, h2, ih]
      · simp [h1, h2, ih]

lemma tallySentences_neg_eq_countP (f : String → ℚ) :
    ∀ l : List String,
      (tallySentences f l).2.1 =
        l.countP (fun s => decide (f s ≤ -(3/10))) := by
  intro l
  induction l with
  | nil => rfl
  | cons s rest ih =>
    simp only [tallySentences, List.countP_cons]
    by_cases h1 : f s ≥ 3/10
    · have h2 : ¬(f s ≤ -(3/10)) := by
        intro hle
        have : (3 : ℚ)/10 ≤ -(3/10) := le_trans h1 hle
        norm_num at this
      simp [h1, h2, ih]
    · by_cases h2 : f s ≤ -(3/10)
      · simp [h1, h2, ih]
      · simp [h1, h2, ih]

/-! ### C9 — the zero-sentence branch is dead code -/

/-- C9 confirmed.  Splitting any text (the empty text included) on the three
sentence marks yields at least one candidate, every candidate lands in
exactly one of the three tallies, and therefore the classifier's
`total == 0` early return can never fire. -/
theorem split_total_positive_early_return_unreachable
    (compound : String → ℚ) (text : String) :
    1 ≤ (splitSentences text).length ∧
    (tallySentences compound (splitSentences text)).1 +
      (tallySentences compound (splitSentences text)).2.1 +
      (tallySentences compound (splitSentences text)).2.2 =
      (splitSentences text).length ∧
    (tallySentences compound (splitSentences text)).1 +
      (tallySentences compound (splitSentences text)).2.1 +
      (tallySentences compound (splitSentences text)).2.2 ≠ 0 := by
  have hlen := splitSentences_length_pos text
  have hsum := tallySentences_sum compound (splitSentences text)
  exact ⟨hlen, hsum, by omega⟩

/-! ### C5 — the classifier tallies every candidate, discarding nothing -/

/-- C5 counterexample.  The claim says empty/whitespace-only candidates are
discarded before tallying, so for a compound model scoring `"good"` at `0.5`
the text `"good."` (retained sentences: just `"good"`, 100% positive) should
classify as positive.  The source tallies the empty trailing candidate as a
neutral sentence, making the positive fraction 1/2 < 0.7, and returns
neutral; the spec-worded classifier on the same input returns positive. -/
theorem classifier_counts_empty_candidates_cex :
    classify_sentiment (fun s => if s = "good" then 1 else 0) "good." =
      (0, "neutral") ∧
    classify_sentiment_spec (fun s => if s = "good" then 1 else 0) "good." =
      (1, "positive") ∧
    ((0, "neutral") : Int × String) ≠ (1, "positive") := by
  have hs : splitSentences "good." = ["good", ""] := by decide
  have hno : ¬(("" : String) = "good") := by decide
  have hb1 : isBlank "good" = false := by decide
  have hb2 : isBlank "" = true := by decide
  refine ⟨?_, ?_, by decide⟩
  · simp only [classify_sentiment, hs]
    norm_num [tallySentences, hno]
  · simp only [classify_sentiment_spec, hs]
    norm_num [tallySentences, hb1, hb2, hno]

/-- C5 amended.  The classifier splits on the three sentence marks but
discards nothing: every candidate (empty and whitespace-only ones included)
is tallied, and the label is positive iff at least 70% of ALL candidates
score compound ≥ 0.3, negative iff at least 70% score ≤ -0.3, else neutral;
the candidate list is never empty, so the zero-sentence early return never
fires and an empty text classifies through a single (typically neutral)
candidate. -/
theorem classifier_supermajority_over_all_candidates
    (compound : String → ℚ) (text : String) :
    0 < (splitSentences text).length ∧
    classify_sentiment compound text =
      (if ((splitSentences text).countP
            (fun s => decide (compound s ≥ 3/10)) : ℚ) /
            (splitSentences text).length ≥ 7/10 then (1, "positive")
       else if ((splitSentences text).countP
            (fun s => decide (compound s ≤ -(3/10))) : ℚ) /
            (splitSentences text).length ≥ 7/10 then (-1, "negative")
       else (0, "neutral")) := by
  have hlen := splitSentences_length_pos text
  refine ⟨hlen, ?_⟩
  simp only [classify_sentiment]
  rw [tallySentences_sum compound (splitSentences text),
    tallySentences_pos_eq_countP compound (splitSentences text),
    tallySentences_neg_eq_countP compound (splitSentences text)]
  have hne : (splitSentences text).length ≠ 0 := by omega
  simp [hne]

/-! ### C6 — lexicon score is the sign of the count difference -/

/-- C6 confirmed.  The lexicon score equals the sign of the difference
between the number of positive-keyword and negative-keyword token
occurrences (occurrences counted individually over the case-insensitive word
tokenization), and the ambiguity flag is set exactly when both counts are
positive. -/
lemma bothNonemptyFlag_iff {α : Type} (l m : List α) :
    (!l.isEmpty && !m.isEmpty) = true ↔ 0 < l.length ∧ 0 < m.length := by
  cases l <;> cases m <;> simp

lemma score_sign_eq (p n : Nat) :
    (if p > n then (1 : Int) else if n > p then -1 else 0) =
      Int.sign ((p : ℤ) - (n : ℤ)) := by
  rcases Nat.lt_trichotomy p n with h | h | h
  · rw [if_neg (by omega : ¬ p > n), if_pos (by omega : n > p),
      Int.sign_eq_neg_one_of_neg (by omega : (p : ℤ) - (n : ℤ) < 0)]
  · rw [if_neg (by omega : ¬ p > n), if_neg (by omega : ¬ n > p),
      (by omega : (p : ℤ) - (n : ℤ) = 0), Int.sign_zero]
  · rw [if_pos (by omega : p > n),
      Int.sign_eq_one_of_pos (by omega : 0 < (p : ℤ) - (n : ℤ))]

theorem lexicon_score_sign_ambiguous (text : String) :
    (score_lookup text).1 =
      Int.sign ((posCount text : ℤ) - (negCount text : ℤ)) ∧
    ((score_lookup text).2.2.2 = true ↔
      0 < posCount text ∧ 0 < negCount text) := by
  have hp : posCount text = ((tokenize text).filter
      (fun w => positive_keywords.contains w)).length :=
    List.countP_eq_length_filter _ _
  have hn : negCount text = ((tokenize text).filter
      (fun w => negative_keywords.contains w)).length :=
    List.countP_eq_length_filter _ _
  rw [hp, hn]
  exact ⟨score_sign_eq _ _, bothNonemptyFlag_iff _ _⟩

/-! ### C7 — timestamp normalization -/

/-- C7 counterexample.  The claim says every raw date text other than the
two accepted formats is rejected.  The source enters the `Today` branch
whenever `'Today' in date_text` holds as a substring test, so the
non-conforming text `"XToday 03:15PM"` — which does not start with `Today`
and does not match the absolute-date pattern — is happily parsed instead of
being rejected. -/
theorem timestamp_today_substring_cex :
    parse_finviz_timestamp ⟨2024, 5, 10, 10, 0⟩ "XToday 03:15PM" =
      some ⟨2024, 5, 10, 15, 15⟩ ∧
    startsWithChars "XToday 03:15PM".data "Today".data = false ∧
    absRegexMatch "XToday 03:15PM" = false := by
  refine ⟨by decide, by decide, by decide⟩

/-- C7 amended.  (a) `"Today 03:15PM"` with now = 2024-05-10T10:00 ET parses
to 2024-05-10T15:15 ET and (b) `"Aug-12-25 03:45PM"` parses to
2025-08-12T15:45 ET, as the claim states; (c) a raw text is rejected when it
neither CONTAINS the substring `Today` nor has a prefix matching the
absolute-date pattern — containment, not an exact `Today HH:MMAM/PM` shape,
selects the relative branch, so some other-format strings are accepted. -/
theorem timestamp_normalizer_behavior :
    parse_finviz_timestamp ⟨2024, 5, 10, 10, 0⟩ "Today 03:15PM" =
      some ⟨2024, 5, 10, 15, 15⟩ ∧
    parse_finviz_timestamp ⟨2024, 5, 10, 10, 0⟩ "Aug-12-25 03:45PM" =
      some ⟨2025, 8, 12, 15, 45⟩ ∧
    ∀ (now : Datetime) (s : String), strContains s "Today" = false →
      absRegexMatch s = false → parse_finviz_timestamp now s = none := by
  refine ⟨by decide, by decide, ?_⟩
  intro now s h1 h2
  simp [parse_finviz_timestamp, h1, h2]

/-- C7 witness: the rejection clause of the amended theorem applied to a
concrete unrecognized string. -/
theorem timestamp_normalizer_behavior_witness :
    parse_finviz_timestamp ⟨2024, 5, 10, 10, 0⟩ "8:00AM est" = none :=
  timestamp_normalizer_behavior.2.2 ⟨2024, 5, 10, 10, 0⟩ "8:00AM est"
    (by decide) (by decide)

/-! ### Deduplication lemmas (C8, C10) -/

lemma mem_seenAfter (k : String × String × Datetime) :
    ∀ (l : List Event) (seen : List (String × String × Datetime)),
      k ∈ seenAfter seen l ↔ k ∈ seen ∨ k ∈ l.map eventKey := by
  intro l
  induction l with
  | nil => intro seen; simp [seenAfter]
  | cons e es ih =>
    intro seen
    simp only [seenAfter]
    by_cases hk : eventKey e ∈ seen
    · rw [if_pos hk, ih]
      simp only [List.map_cons, List.mem_cons]
      constructor
      · rintro (h | h)
        · exact Or.inl h
        · exact Or.inr (Or.inr h)
      · rintro (h | h | h)
        · exact Or.inl h
        · exact Or.inl (h ▸ hk)
        · exact Or.inr h
    · rw [if_neg hk, ih]
      simp only [List.mem_cons, List.map_cons]
      constructor
      · rintro ((h | h) | h)
        · exact Or.inr (Or.inl h)
        · exact Or.inl h
        · exact Or.inr (Or.inr h)
      · rintro (h | h | h)
        · exact Or.inl (Or.inr h)
        · exact Or.inl (Or.inl h)
        · exact Or.inr h

lemma dedupAux_append (l₂ : List Event) :
    ∀ (l₁ : List Event) (seen : List (String × String × Datetime)),
      dedupAux seen (l₁ ++ l₂) =
        dedupAux seen l₁ ++ dedupAux (seenAfter seen l₁) l₂ := by
  intro l₁
  induction l₁ with
  | nil => intro seen; simp [dedupAux, seenAfter]
  | cons e es ih =>
    intro seen
    simp only [List.cons_append, dedupAux, seenAfter, List.append_eq]
    by_cases hk : eventKey e ∈ seen
    · rw [if_pos hk, if_pos hk, if_pos hk, ih]
    · rw [if_neg hk, if_neg hk, if_neg hk, ih]
      simp

lemma mem_map_key_dedupAux (k : String × String × Datetime) :
    ∀ (l : List Event) (seen : List (String × String × Datetime)),
      k ∈ (dedupAux seen l).map eventKey ↔
        k ∉ seen ∧ k ∈ l.map eventKey := by
  intro l
  induction l with
  | nil => intro seen; simp [dedupAux]
  | cons e es ih =>
    intro seen
    simp only [dedupAux]
    by_cases hk : eventKey e ∈ seen
    · rw [if_pos hk, ih]
      simp only [List.map_cons, List.mem_cons]
      constructor
      · rintro ⟨hns, hm⟩
        exact ⟨hns, Or.inr hm⟩
      · rintro ⟨hns, h | hm⟩
        · exact absurd (h ▸ hk) hns
        · exact ⟨hns, hm⟩
    · rw [if_neg hk]
      simp only [List.map_cons, List.mem_cons, ih]
      constructor
      · rintro (h | ⟨hns, hm⟩)
        · subst h
          exact ⟨hk, Or.inl rfl⟩
        · exact ⟨fun hs => hns (Or.inr hs), Or.inr hm⟩
      · rintro ⟨hns, h | hm⟩
        · exact Or.inl h
        · by_cases hke : k = eventKey e
          · exact Or.inl hke
          · exact Or.inr ⟨by simp [hke, hns], hm⟩

lemma nodup_map_key_dedupAux :
    ∀ (l : List Event) (seen : List (String × String × Datetime)),
      ((dedupAux seen l).map eventKey).Nodup := by
  intro l
  induction l with
  | nil => intro seen; simp [dedupAux]
  | cons e es ih =>
    intro seen
    simp only [dedupAux]
    by_cases hk : eventKey e ∈ seen
    · rw [if_pos hk]
      exact ih seen
    · rw [if_neg hk]
      simp only [List.map_cons, List.nodup_cons]
      refine ⟨fun hmem => ?_, ih _⟩
      exact ((mem_map_key_dedupAux _ _ _).mp hmem).1 (List.mem_cons_self _ _)

lemma dedupAux_sublist :
    ∀ (l : List Event) (seen : List (String × String × Datetime)),
      List.Sublist (dedupAux seen l) l := by
  intro l
  induction l with
  | nil => intro seen; simp [dedupAux]
  | cons e es ih =>
    intro seen
    simp only [dedupAux]
    by_cases hk : eventKey e ∈ seen
    · rw [if_pos hk]
      exact List.Sublist.cons _ (ih seen)
    · rw [if_neg hk]
      exact List.Sublist.cons₂ _ (ih _)

lemma dedupAux_eq_self :
    ∀ (l : List Event) (seen : List (String × String × Datetime)),
      (l.map eventKey).Nodup →
      (∀ k ∈ l.map eventKey, k ∉ seen) → dedupAux seen l = l := by
  intro l
  induction l with
  | nil => intro seen _ _; rfl
  | cons e es ih =>
    intro seen hnd hdisj
    have hk : eventKey e ∉ seen :=
      hdisj (eventKey e) (by simp)
    simp only [dedupAux, if_neg hk]
    congr 1
    have hnd' : (List.map eventKey es).Nodup ∧
        eventKey e ∉ List.map eventKey es := by
      simp only [List.map_cons, List.nodup_cons] at hnd
      exact ⟨hnd.2, hnd.1⟩
    refine ih _ hnd'.1 ?_
    intro k hkmem
    simp only [List.mem_cons]
    rintro (h | h)
    · exact hnd'.2 (h ▸ hkmem)
    · exact hdisj k (List.mem_cons_of_mem _ hkmem) h

lemma find?_dedupAux (k : String × String × Datetime) :
    ∀ (l : List Event) (seen : List (String × String × Datetime)), k ∉ seen →
      (dedupAux seen l).find? (fun e => decide (eventKey e = k)) =
        l.find? (fun e => decide (eventKey e = k)) := by
  intro l
  induction l with
  | nil => intro seen _; rfl
  | cons e es ih =>
    intro seen hks
    simp only [dedupAux]
    by_cases hk : eventKey e ∈ seen
    · rw [if_pos hk]
      have hne : ¬(eventKey e = k) := fun h => hks (h ▸ hk)
      rw [List.find?_cons_of_neg _ (by simpa using hne)]
      exact ih seen hks
    · rw [if_neg hk]
      by_cases hek : eventKey e = k
      · rw [List.find?_cons_of_pos _ (by simpa using hek),
          List.find?_cons_of_pos _ (by simpa using hek)]
      · rw [List.find?_cons_of_neg _ (by simpa using hek),
          List.find?_cons_of_neg _ (by simpa using hek)]
        refine ih _ ?_
        simp only [List.mem_cons]
        rintro (h | h)
        · exact hek h.symm
        · exact hks h

/-! ### C8 — deduplication is idempotent, one event per key -/

/-- C8 confirmed.  Appending a second event with an identical
`(Ticker, Title, Datetime)` key and deduplicating gives the same collection
as deduplicating the original; deduplication is idempotent; and every key of
the collection survives in exactly one event of the result. -/
theorem dedup_idempotent_unique (l : List Event) (e : Event) :
    (eventKey e ∈ l.map eventKey →
      drop_duplicates (l ++ [e]) = drop_duplicates l) ∧
    drop_duplicates (drop_duplicates l) = drop_duplicates l ∧
    (∀ k ∈ l.map eventKey,
      ((drop_duplicates l).map eventKey).countP
        (fun x => decide (x = k)) = 1) := by
  refine ⟨?_, ?_, ?_⟩
  · intro hmem
    unfold drop_duplicates
    rw [dedupAux_append]
    have hseen : eventKey e ∈ seenAfter [] l :=
      (mem_seenAfter _ l []).mpr (Or.inr hmem)
    simp [dedupAux, hseen]
  · unfold drop_duplicates
    exact dedupAux_eq_self _ _ (nodup_map_key_dedupAux l []) (by simp)
  · intro k hk
    have hmem : k ∈ (drop_duplicates l).map eventKey :=
      (mem_map_key_dedupAux k l []).mpr ⟨by simp, hk⟩
    exact List.count_eq_one_of_mem (nodup_map_key_dedupAux l []) hmem

/-- A concrete event used in the deduplication witness. -/
def evFirst : Event := ⟨"AAPL", ⟨2024, 5, 10, 9, 30⟩, "t1", "content one", 1, 0⟩

/-- A second concrete event with a different key. -/
def evOther : Event := ⟨"MSFT", ⟨2024, 5, 10, 9, 45⟩, "t2", "content two", 0, 1⟩

/-- A duplicate of `evFirst`: same key, different payload fields. -/
def evDup : Event := ⟨"AAPL", ⟨2024, 5, 10, 9, 30⟩, "t1", "other text", -1, 1⟩

/-- C8 witness: the theorem applied to a concrete collection containing a
duplicate key. -/
theorem dedup_idempotent_unique_witness :
    drop_duplicates ([evFirst, evOther] ++ [evDup]) =
      drop_duplicates [evFirst, evOther] ∧
    drop_duplicates (drop_duplicates [evFirst, evOther, evDup]) =
      drop_duplicates [evFirst, evOther, evDup] ∧
    ((drop_duplicates [evFirst, evOther, evDup]).map eventKey).countP
      (fun x => decide (x = eventKey evFirst)) = 1 :=
  ⟨(dedup_idempotent_unique [evFirst, evOther] evDup).1 (by decide),
   (dedup_idempotent_unique [evFirst, evOther, evDup] evDup).2.1,
   (dedup_idempotent_unique [evFirst, evOther, evDup] evDup).2.2
     (eventKey evFirst) (by decide)⟩

/-! ### C10 — deduplication keeps the first-encountered event -/

/-- C10 confirmed.  The deduplicated collection is a sublist of the original
(order preserved, later duplicates dropped), and for every key the surviving
event — looked up with `find?` — is exactly the first event of the original
collection with that key, carrying its own Content and score fields. -/
theorem dedup_keeps_first_occurrence (l : List Event) :
    List.Sublist (drop_duplicates l) l ∧
    ∀ k : String × String × Datetime,
      (drop_duplicates l).find? (fun e => decide (eventKey e = k)) =
        l.find? (fun e => decide (eventKey e = k)) := by
  refine ⟨dedupAux_sublist l [], fun k => ?_⟩
  exact find?_dedupAux k l [] (by simp)

end DictionAnalysis
